import Mathlib

/-!
Verification of the Monte Carlo retirement-planning engine
(`rust-engine/src/`).  The Rust code is shallowly embedded in Lean:

* 32-bit machine words (the Mulberry32 PRNG state) become natural numbers
  with every wrapping addition and multiplication taken modulo `2 ^ 32`;
* finite `f64` arithmetic is modelled by the exact rationals `ℚ` where the
  code only adds, multiplies, divides and compares, and by the reals `ℝ`
  where the code calls `powf` or `sqrt` (`Real.rpow`, `Real.sqrt`);
* stochastic draws made by the simulation driver (regime transitions,
  sampled returns, inflation draws) enter the embedded wealth-accounting
  loop as explicit oracle streams `ℕ → ℚ`, one value per month, exactly in
  the position where the Rust code consumes them;
* Rust `Vec` indexing that is in range by construction becomes `List.getD`.
-/

namespace RetirementPlanner

/-! ## Random source: the seeded Mulberry32 step (`calculations.rs` 36-53) -/

/-- One call of the seeded branch of `RandomSource::random`.  The state is
advanced by a wrapping 32-bit addition of `0x6D2B79F5`, then the output word
is produced by the exact JS `Math.imul` steps of the source (`js_imul1`,
`js_imul2`, `t_val`, `final_val`) and divided by `4294967296`.  Returns the
advanced state paired with the produced uniform. -/
def mulberry_random (state : ℕ) : ℕ × ℚ :=
  let s := (state + 0x6D2B79F5) % 2 ^ 32
  let js_imul1 := ((s ^^^ (s >>> 15)) * (1 ||| s)) % 2 ^ 32
  let js_imul2 := ((js_imul1 ^^^ (js_imul1 >>> 7)) * (61 ||| js_imul1)) % 2 ^ 32
  let t_val := js_imul1 ^^^ ((js_imul1 + js_imul2) % 2 ^ 32)
  let final_val := t_val ^^^ (t_val >>> 14)
  (s, (final_val : ℚ) / 4294967296)

lemma shiftRight_le_self (x n : ℕ) : x >>> n ≤ x := by
  rw [Nat.shiftRight_eq_div_pow]; exact Nat.div_le_self ..

lemma mulberry_final_lt (j : ℕ) (hj : j < 2 ^ 32) (k : ℕ) :
    (j ^^^ k % 2 ^ 32) ^^^ ((j ^^^ k % 2 ^ 32) >>> 14) < 2 ^ 32 := by
  have ht : j ^^^ k % 2 ^ 32 < 2 ^ 32 :=
    Nat.xor_lt_two_pow hj (Nat.mod_lt _ (by norm_num))
  exact Nat.xor_lt_two_pow ht (lt_of_le_of_lt (shiftRight_le_self ..) ht)

/-- C1: a seeded `random()` call first advances the 32-bit state by a wrapping
addition of `0x6D2B79F5` and then returns exactly
`(t ^^^ (t >>> 14)) / 2 ^ 32` where `t = j1 ^^^ ((j1 + j2) % 2 ^ 32)`,
`j1 = ((state ^^^ (state >>> 15)) * (state ||| 1)) % 2 ^ 32` and
`j2 = ((j1 ^^^ (j1 >>> 7)) * (j1 ||| 61)) % 2 ^ 32` are computed from the
advanced state with 32-bit wrap arithmetic; the returned value lies in
`[0, 1)`. -/
theorem mulberry_random_spec (state : ℕ) (h : state < 2 ^ 32) :
    (mulberry_random state).1 = (state + 0x6D2B79F5) % 2 ^ 32 ∧
    (mulberry_random state).2 =
      (let s := (state + 0x6D2B79F5) % 2 ^ 32
       let j1 := ((s ^^^ (s >>> 15)) * (s ||| 1)) % 2 ^ 32
       let j2 := ((j1 ^^^ (j1 >>> 7)) * (j1 ||| 61)) % 2 ^ 32
       let t := j1 ^^^ ((j1 + j2) % 2 ^ 32)
       ((t ^^^ (t >>> 14) : ℕ) : ℚ) / 2 ^ 32) ∧
    0 ≤ (mulberry_random state).2 ∧ (mulberry_random state).2 < 1 := by
  refine ⟨rfl, ?_, ?_, ?_⟩
  · simp only [mulberry_random]
    rw [Nat.lor_comm 1 _, Nat.lor_comm 61 _]
    norm_num
  · exact div_nonneg (Nat.cast_nonneg _) (by norm_num)
  · show ((_ : ℕ) : ℚ) / 4294967296 < 1
    rw [div_lt_one (by norm_num)]
    have : (4294967296 : ℚ) = ((2 ^ 32 : ℕ) : ℚ) := by norm_num
    rw [this, Nat.cast_lt]
    exact mulberry_final_lt _ (Nat.mod_lt _ (by norm_num)) _

/-- Witness for C1 at the concrete state `0`. -/
theorem mulberry_random_spec_witness :
    (0 : ℕ) < 2 ^ 32 ∧ 0 ≤ (mulberry_random 0).2 ∧ (mulberry_random 0).2 < 1 :=
  ⟨by norm_num, (mulberry_random_spec 0 (by norm_num)).2.2⟩

/-! ## Shared clamps (`calculations.rs` 120-128, `engine.rs` 79-92, 172-178) -/

/-- Generic clamp of `calculations.rs`: below the minimum returns the
minimum, above the maximum returns the maximum, otherwise the value. -/
def clamp {α : Type} [LinearOrder α] (value mn mx : α) : α :=
  if value < mn then mn else if value > mx then mx else value

/-- Constant `MIN_STATE_PROBABILITY = 0.001` of `engine.rs`. -/
def MIN_STATE_PROBABILITY : ℚ := 1 / 1000

/-- Transition probabilities are clamped into `[0.001, 0.999]`. -/
def clamp_transition_probability (value : ℚ) : ℚ :=
  clamp value MIN_STATE_PROBABILITY (1 - MIN_STATE_PROBABILITY)

/-- Annual returns are clamped into `[-0.95, 1.2]` (`engine.rs` 172-174),
generically over the ordered field modelling `f64`. -/
def clamp_annual_return {α : Type} [LinearOrderedField α] (value : α) : α :=
  clamp value (-(19 / 20 : α)) (6 / 5 : α)

/-- Stationary probability of the growth regime (`engine.rs` 86-92):
`(1 - stayCrisis) / (2 - stayGrowth - stayCrisis)`, with `0.5` returned
when the denominator is at most `1e-9`. -/
def get_growth_stationary_probability (stay_growth stay_crisis : ℚ) : ℚ :=
  let denominator := 2 - stay_growth - stay_crisis
  if denominator ≤ 1 / 10 ^ 9 then 1 / 2
  else (1 - stay_crisis) / denominator

/-- C4: for stay probabilities (values in `[0, 1]`) whose sum is below `2`,
the growth stationary probability — `(1 - stayCrisis) / (2 - stayGrowth -
stayCrisis)`, or `0.5` when the denominator is at most `1e-9` — lies in
`[0, 1]`. -/
theorem get_growth_stationary_probability_mem_unitInterval
    (stay_growth stay_crisis : ℚ)
    (hg0 : 0 ≤ stay_growth) (hg1 : stay_growth ≤ 1)
    (hc0 : 0 ≤ stay_crisis) (hc1 : stay_crisis ≤ 1)
    (hsum : stay_growth + stay_crisis < 2) :
    0 ≤ get_growth_stationary_probability stay_growth stay_crisis ∧
      get_growth_stationary_probability stay_growth stay_crisis ≤ 1 := by
  unfold get_growth_stationary_probability
  by_cases hden : 2 - stay_growth - stay_crisis ≤ 1 / 10 ^ 9
  · rw [if_pos hden]; norm_num
  · rw [if_neg hden]
    push_neg at hden
    have hpos : 0 < 2 - stay_growth - stay_crisis := lt_trans (by norm_num) hden
    constructor
    · exact div_nonneg (by linarith) (le_of_lt hpos)
    · rw [div_le_one hpos]; linarith

/-- Witness for C4 at `stayGrowth = stayCrisis = 1/2`. -/
theorem get_growth_stationary_probability_witness :
    (0 ≤ (1 / 2 : ℚ) ∧ (1 / 2 : ℚ) ≤ 1 ∧ (1 / 2 : ℚ) + 1 / 2 < 2) ∧
      0 ≤ get_growth_stationary_probability (1 / 2) (1 / 2) ∧
      get_growth_stationary_probability (1 / 2) (1 / 2) ≤ 1 :=
  ⟨by norm_num, get_growth_stationary_probability_mem_unitInterval (1 / 2) (1 / 2)
    (by norm_num) (by norm_num) (by norm_num) (by norm_num) (by norm_num)⟩

/-! ## Per-simulation wealth accounting (`simulation.rs` 290-465)

The stochastic quantities of the monthly loop — the after-tax, after-fee
portfolio growth factor and the drawn monthly inflation — are supplied as
oracle streams `ℕ → ℚ`, one value per month, in exactly the position where
`run_monte_carlo_simulation` consumes them. -/

/-- Mutable per-simulation state of the monthly loop. -/
structure SimState where
  balance : ℚ
  depleted : Bool
  cumulative_shortfall : ℚ
  depleted_months : ℕ
  sim_balances : List ℚ

/-- One month of the wealth accounting of `run_monte_carlo_simulation`
(`simulation.rs` 420-439): add the net cashflow and the lump sum, apply the
monthly portfolio growth factor, deflate by the drawn monthly inflation;
when the resulting balance is at most `0`, add the deficit to the cumulative
shortfall, set the depleted flag, clamp the balance to `0` and count a
depleted month; finally record the balance in the trajectory. -/
def sim_month_step (net_flow lump growth_factor inflation : ℚ)
    (st : SimState) : SimState :=
  let b := (st.balance + net_flow + lump) * growth_factor / (1 + inflation)
  if b ≤ 0 then
    { balance := 0
      depleted := true
      cumulative_shortfall := st.cumulative_shortfall + max 0 (-b)
      depleted_months := st.depleted_months + 1
      sim_balances := st.sim_balances ++ [0] }
  else
    { balance := b
      depleted := st.depleted
      cumulative_shortfall := st.cumulative_shortfall
      depleted_months := st.depleted_months
      sim_balances := st.sim_balances ++ [b] }

/-- One full simulation of `months` months starting from the current
savings (`simulation.rs` 290-440), with the monthly growth factors and
inflation draws given by oracle streams. -/
def run_single_sim (current_savings : ℚ) (net_flow lump : ℕ → ℚ)
    (growth inflation : ℕ → ℚ) (months : ℕ) : SimState :=
  (List.range months).foldl
    (fun st m => sim_month_step (net_flow m) (lump m) (growth m) (inflation m) st)
    { balance := current_savings
      depleted := false
      cumulative_shortfall := 0
      depleted_months := 0
      sim_balances := [] }

lemma sim_month_step_balance_nonneg (net_flow lump growth_factor inflation : ℚ)
    (st : SimState) :
    0 ≤ (sim_month_step net_flow lump growth_factor inflation st).balance := by
  unfold sim_month_step
  by_cases hb : (st.balance + net_flow + lump) * growth_factor / (1 + inflation) ≤ 0
  · simp [hb]
  · simp only [if_neg hb]
    exact le_of_lt (lt_of_not_ge hb)

lemma sim_month_step_balances_nonneg (net_flow lump growth_factor inflation : ℚ)
    (st : SimState) (hst : ∀ b ∈ st.sim_balances, 0 ≤ b) :
    ∀ b ∈ (sim_month_step net_flow lump growth_factor inflation st).sim_balances,
      0 ≤ b := by
  unfold sim_month_step
  by_cases hb : (st.balance + net_flow + lump) * growth_factor / (1 + inflation) ≤ 0
  · simp only [if_pos hb, List.mem_append, List.mem_singleton]
    rintro b (h | rfl)
    · exact hst b h
    · exact le_refl 0
  · simp only [if_neg hb, List.mem_append, List.mem_singleton]
    rintro b (h | rfl)
    · exact hst b h
    · exact le_of_lt (lt_of_not_ge hb)

lemma foldl_sim_balances_nonneg (net_flow lump growth inflation : ℕ → ℚ)
    (ms : List ℕ) (st : SimState) (hst : ∀ b ∈ st.sim_balances, 0 ≤ b) :
    ∀ b ∈ (ms.foldl
      (fun st m => sim_month_step (net_flow m) (lump m) (growth m) (inflation m) st)
      st).sim_balances, 0 ≤ b := by
  induction ms generalizing st with
  | nil => exact hst
  | cons m ms ih =>
      exact ih _ (sim_month_step_balances_nonneg _ _ _ _ _ hst)

lemma run_single_sim_balance_nonneg (current_savings : ℚ)
    (net_flow lump growth inflation : ℕ → ℚ) (months : ℕ) (hm : months ≠ 0) :
    0 ≤ (run_single_sim current_savings net_flow lump growth inflation months).balance := by
  obtain ⟨n, rfl⟩ := Nat.exists_eq_succ_of_ne_zero hm
  unfold run_single_sim
  rw [List.range_succ, List.foldl_append, List.foldl_cons, List.foldl_nil]
  exact sim_month_step_balance_nonneg ..

/-- C2: every balance recorded in a simulation trajectory is nonnegative,
and whenever the post-cashflow, post-growth, post-inflation balance is at
most `0`, the month step adds the deficit `max 0 (-balance)` to the
cumulative shortfall, sets the depleted flag, counts a depleted month and
records a clamped `0` balance. -/
theorem sim_balances_nonneg (current_savings : ℚ)
    (net_flow lump growth inflation : ℕ → ℚ) (months : ℕ) :
    (∀ b ∈ (run_single_sim current_savings net_flow lump
        growth inflation months).sim_balances, 0 ≤ b) ∧
    (∀ (nf lu g i : ℚ) (st : SimState),
      (st.balance + nf + lu) * g / (1 + i) ≤ 0 →
        sim_month_step nf lu g i st =
          { balance := 0
            depleted := true
            cumulative_shortfall := st.cumulative_shortfall +
              max 0 (-((st.balance + nf + lu) * g / (1 + i)))
            depleted_months := st.depleted_months + 1
            sim_balances := st.sim_balances ++ [0] }) := by
  constructor
  · exact foldl_sim_balances_nonneg _ _ _ _ _ _ (by intro b hb; cases hb)
  · intro nf lu g i st hneg
    unfold sim_month_step
    rw [if_pos hneg]

/-- Witness for C2: a one-month simulation that goes broke. -/
theorem sim_balances_nonneg_witness :
    (∀ b ∈ (run_single_sim 5 (fun _ => -10) (fun _ => 0)
        (fun _ => 1) (fun _ => 0) 1).sim_balances, 0 ≤ b) ∧
    (run_single_sim 5 (fun _ => -10) (fun _ => 0)
        (fun _ => 1) (fun _ => 0) 1).sim_balances = [0] :=
  ⟨(sim_balances_nonneg 5 (fun _ => -10) (fun _ => 0)
      (fun _ => 1) (fun _ => 0) 1).1,
    by norm_num [run_single_sim, sim_month_step, List.range_succ]⟩

/-! ## Success accounting over a run (`simulation.rs` 259-269, 454-456, 549) -/

/-- All simulations of a run: each element of `draws` carries the growth
factor and inflation oracle streams of one simulation; the cashflow arrays
are shared, exactly as in `run_monte_carlo_simulation`. -/
def run_all_sims (current_savings : ℚ) (net_flow lump : ℕ → ℚ)
    (draws : List ((ℕ → ℚ) × (ℕ → ℚ))) (months : ℕ) : List SimState :=
  draws.map (fun d => run_single_sim current_savings net_flow lump d.1 d.2 months)

/-- Success test of `simulation.rs` 454-456: not depleted and a strictly
positive final balance. -/
def is_success (st : SimState) : Bool :=
  !st.depleted && decide (0 < st.balance)

/-- The `success_probability` field of `SummaryStats` (`simulation.rs` 549):
success count over simulation count. -/
def success_probability (results : List SimState) : ℚ :=
  (results.countP is_success : ℚ) / (results.length : ℚ)

/-- Fraction of simulations that are depleted or end at exactly `0`. -/
def depleted_or_zero_fraction (results : List SimState) : ℚ :=
  (results.countP (fun st => st.depleted || decide (st.balance = 0)) : ℚ) /
    (results.length : ℚ)

lemma countP_success_add_countP_ruin (results : List SimState)
    (hpos : ∀ st ∈ results, 0 ≤ st.balance) :
    results.countP is_success +
      results.countP (fun st => st.depleted || decide (st.balance = 0)) =
      results.length := by
  induction results with
  | nil => rfl
  | cons st rest ih =>
      have hst : 0 ≤ st.balance := hpos st (List.mem_cons_self ..)
      have hrest := ih (fun s hs => hpos s (List.mem_cons_of_mem _ hs))
      rw [List.countP_cons, List.countP_cons, List.length_cons]
      rcases Bool.eq_false_or_eq_true (is_success st) with hsucc | hsucc
      · have hruin : (st.depleted || decide (st.balance = 0)) = false := by
          have hparts : st.depleted = false ∧ 0 < st.balance := by
            have hs := hsucc
            simp only [is_success, Bool.and_eq_true, Bool.not_eq_true',
              decide_eq_true_eq] at hs
            exact hs
          rw [hparts.1, Bool.false_or, decide_eq_false_iff_not]
          exact ne_of_gt hparts.2
        rw [hsucc, hruin]
        simp only [if_true]
        simp only [show (false = true) = False by simp, if_false]
        omega
      · have hruin : (st.depleted || decide (st.balance = 0)) = true := by
          rcases Bool.eq_false_or_eq_true st.depleted with hdep | hdep
          · simp [hdep]
          · have hnpos : ¬ 0 < st.balance := by
              intro hlt
              have htrue : is_success st = true := by
                simp [is_success, hdep, hlt]
              rw [htrue] at hsucc; cases hsucc
            have hzero : st.balance = 0 := le_antisymm (not_lt.mp hnpos) hst
            simp [hzero]
        rw [hsucc, hruin]
        simp only [if_true]
        simp only [show (false = true) = False by simp, if_false]
        omega

/-- C3: over a completed run (at least one month, at least one simulation),
the success probability plus the fraction of simulations that are depleted
or end at exactly `0` equals `1`; the success count is the number of
simulations with `depleted = false` and a strictly positive final balance;
and every non-success simulation is depleted or ends at exactly `0`. -/
theorem success_probability_complement (current_savings : ℚ)
    (net_flow lump : ℕ → ℚ) (draws : List ((ℕ → ℚ) × (ℕ → ℚ))) (months : ℕ)
    (hm : months ≠ 0) (hd : draws ≠ []) :
    success_probability (run_all_sims current_savings net_flow lump draws months) +
      depleted_or_zero_fraction (run_all_sims current_savings net_flow lump draws months)
      = 1 ∧
    (run_all_sims current_savings net_flow lump draws months).countP is_success =
      ((run_all_sims current_savings net_flow lump draws months).filter
        (fun st => !st.depleted && decide (0 < st.balance))).length ∧
    (∀ st ∈ run_all_sims current_savings net_flow lump draws months,
      is_success st = false → st.depleted = true ∨ st.balance = 0) := by
  set results := run_all_sims current_savings net_flow lump draws months with hres
  have hpos : ∀ st ∈ results, 0 ≤ st.balance := by
    intro st hst
    rw [hres, run_all_sims] at hst
    obtain ⟨d, _, rfl⟩ := List.mem_map.mp hst
    exact run_single_sim_balance_nonneg _ _ _ _ _ _ hm
  refine ⟨?_, ?_, ?_⟩
  · have hlen : results.length ≠ 0 := by
      rw [hres, run_all_sims, List.length_map]
      exact fun h => hd (List.eq_nil_of_length_eq_zero h)
    have hcount := countP_success_add_countP_ruin results hpos
    rw [success_probability, depleted_or_zero_fraction, div_add_div_same,
      ← Nat.cast_add, hcount, div_self]
    exact Nat.cast_ne_zero.mpr hlen
  · rw [List.countP_eq_length_filter]; rfl
  · intro st hst hfail
    have h0 := hpos st hst
    rcases Bool.eq_false_or_eq_true st.depleted with hdep | hdep
    · exact Or.inl hdep
    · right
      have hnpos : ¬ 0 < st.balance := by
        intro hlt
        have htrue : is_success st = true := by simp [is_success, hdep, hlt]
        rw [htrue] at hfail; cases hfail
      exact le_antisymm (not_lt.mp hnpos) h0

/-- Witness for C3: a one-month, two-simulation run in which one simulation
survives and the other goes broke. -/
theorem success_probability_complement_witness :
    (1 ≠ 0 ∧ ([((fun _ => (1 : ℚ)), (fun _ => (0 : ℚ))),
      ((fun _ => (0 : ℚ)), (fun _ => (0 : ℚ)))] :
        List ((ℕ → ℚ) × (ℕ → ℚ))) ≠ []) ∧
    success_probability (run_all_sims 5 (fun _ => 0) (fun _ => 0)
        [((fun _ => 1), (fun _ => 0)), ((fun _ => 0), (fun _ => 0))] 1) +
      depleted_or_zero_fraction (run_all_sims 5 (fun _ => 0) (fun _ => 0)
        [((fun _ => 1), (fun _ => 0)), ((fun _ => 0), (fun _ => 0))] 1) = 1 :=
  ⟨⟨one_ne_zero, by simp⟩,
    (success_probability_complement 5 (fun _ => 0) (fun _ => 0)
      [((fun _ => 1), (fun _ => 0)), ((fun _ => 0), (fun _ => 0))] 1
      one_ne_zero (by simp)).1⟩

/-! ## Percentile extraction (`calculations.rs` 82-104, `simulation.rs` 489-500) -/

/-- The `percentile` function of `calculations.rs`: `0` on the empty array,
the first element for `p ≤ 0`, the last for `p ≥ 1`, and otherwise linear
interpolation between the neighbouring order statistics at index
`p * (len - 1)`.  The `f64` remainder `index % 1.0` equals `Int.fract index`
because the index is nonnegative in the interpolation branch. -/
def percentile (sorted_array : List ℚ) (p : ℚ) : ℚ :=
  if sorted_array.length = 0 then 0
  else if p ≤ 0 then sorted_array.getD 0 0
  else if 1 ≤ p then sorted_array.getD (sorted_array.length - 1) 0
  else
    let index := p * ((sorted_array.length : ℚ) - 1)
    let lower := ⌊index⌋.toNat
    let upper := ⌈index⌉.toNat
    let weight := Int.fract index
    if lower = upper then sorted_array.getD lower 0
    else sorted_array.getD lower 0 * (1 - weight) + sorted_array.getD upper 0 * weight

/-- Interpolated value at a fractional index; the interpolation branch of
`percentile` computes exactly this (also when `lower = upper`). -/
def interp_at (l : List ℚ) (x : ℚ) : ℚ :=
  l.getD ⌊x⌋.toNat 0 * (1 - Int.fract x) + l.getD ⌈x⌉.toNat 0 * Int.fract x

lemma fract_eq_zero_of_floor_eq_ceil {x : ℚ} (h : ⌊x⌋ = ⌈x⌉) : Int.fract x = 0 := by
  have h1 : x ≤ (⌊x⌋ : ℚ) := by rw [h]; exact_mod_cast Int.le_ceil x
  have h2 : (⌊x⌋ : ℚ) ≤ x := Int.floor_le x
  have h3 : Int.fract x = x - ⌊x⌋ := rfl
  linarith

lemma percentile_eq_interp_at (l : List ℚ) (p : ℚ) (h : l ≠ [])
    (hp0 : 0 < p) (hp1 : p < 1) :
    percentile l p = interp_at l (p * ((l.length : ℚ) - 1)) := by
  have hlen : l.length ≠ 0 := fun hl => h (List.eq_nil_of_length_eq_zero hl)
  have h1 : 1 ≤ l.length := Nat.pos_of_ne_zero hlen
  have h1q : (1 : ℚ) ≤ (l.length : ℚ) := by exact_mod_cast h1
  unfold percentile
  rw [if_neg hlen, if_neg (not_le.mpr hp0), if_neg (not_le.mpr hp1)]
  set i := p * ((l.length : ℚ) - 1) with hi
  by_cases hlu : ⌊i⌋.toNat = ⌈i⌉.toNat
  · rw [if_pos hlu]
    have hi0 : 0 ≤ i := mul_nonneg hp0.le (by linarith)
    have hf0 : (0 : ℤ) ≤ ⌊i⌋ := Int.floor_nonneg.mpr hi0
    have hc0 : (0 : ℤ) ≤ ⌈i⌉ := le_trans hf0 (Int.floor_le_ceil i)
    have hfc : ⌊i⌋ = ⌈i⌉ := by omega
    have hfr : Int.fract i = 0 := fract_eq_zero_of_floor_eq_ceil hfc
    rw [interp_at, hfr, hlu]
    ring
  · rw [if_neg hlu]
    rfl

lemma getD_le_getD_of_sorted (l : List ℚ) (hl : l.Sorted (· ≤ ·)) {i j : ℕ}
    (hij : i ≤ j) (hj : j < l.length) : l.getD i 0 ≤ l.getD j 0 := by
  have hi : i < l.length := lt_of_le_of_lt hij hj
  rw [List.getD_eq_getElem?_getD, List.getD_eq_getElem?_getD,
    List.getElem?_eq_getElem hi, List.getElem?_eq_getElem hj]
  simp only [Option.getD_some]
  have := List.Sorted.rel_get_of_le hl
    (show (⟨i, hi⟩ : Fin l.length) ≤ ⟨j, hj⟩ from hij)
  simpa using this

lemma toNat_index_lt (l : List ℚ) {x : ℚ} (hx0 : 0 ≤ x)
    (hx : x ≤ (l.length : ℚ) - 1) :
    ⌊x⌋.toNat < l.length ∧ ⌈x⌉.toNat < l.length ∧ ⌊x⌋.toNat ≤ ⌈x⌉.toNat := by
  have hce : ⌈x⌉ ≤ (l.length : ℤ) - 1 := Int.ceil_le.mpr (by push_cast; linarith)
  have hfl : ⌊x⌋ ≤ ⌈x⌉ := Int.floor_le_ceil x
  have hf0 : (0 : ℤ) ≤ ⌊x⌋ := Int.floor_nonneg.mpr hx0
  omega

lemma interp_at_ge_floor (l : List ℚ) (hl : l.Sorted (· ≤ ·)) {x : ℚ}
    (hx0 : 0 ≤ x) (hx : x ≤ (l.length : ℚ) - 1) :
    l.getD ⌊x⌋.toNat 0 ≤ interp_at l x := by
  obtain ⟨-, hcl, hfcl⟩ := toNat_index_lt l hx0 hx
  have hab : l.getD ⌊x⌋.toNat 0 ≤ l.getD ⌈x⌉.toNat 0 :=
    getD_le_getD_of_sorted l hl hfcl hcl
  have hw0 : 0 ≤ Int.fract x := Int.fract_nonneg x
  have hw1 : Int.fract x < 1 := Int.fract_lt_one x
  unfold interp_at
  nlinarith [mul_nonneg (sub_nonneg.mpr hab) hw0]

lemma interp_at_le_ceil (l : List ℚ) (hl : l.Sorted (· ≤ ·)) {x : ℚ}
    (hx0 : 0 ≤ x) (hx : x ≤ (l.length : ℚ) - 1) :
    interp_at l x ≤ l.getD ⌈x⌉.toNat 0 := by
  obtain ⟨-, hcl, hfcl⟩ := toNat_index_lt l hx0 hx
  have hab : l.getD ⌊x⌋.toNat 0 ≤ l.getD ⌈x⌉.toNat 0 :=
    getD_le_getD_of_sorted l hl hfcl hcl
  have hw0 : 0 ≤ Int.fract x := Int.fract_nonneg x
  have hw1 : Int.fract x < 1 := Int.fract_lt_one x
  unfold interp_at
  nlinarith [mul_nonneg (sub_nonneg.mpr hab) (sub_nonneg.mpr hw1.le)]

lemma interp_at_mono (l : List ℚ) (hl : l.Sorted (· ≤ ·)) {x y : ℚ}
    (hx0 : 0 ≤ x) (hxy : x ≤ y) (hy : y ≤ (l.length : ℚ) - 1) :
    interp_at l x ≤ interp_at l y := by
  have hy0 : 0 ≤ y := le_trans hx0 hxy
  have hx' : x ≤ (l.length : ℚ) - 1 := le_trans hxy hy
  obtain ⟨hflx, hclx, -⟩ := toNat_index_lt l hx0 hx'
  obtain ⟨hfly, hcly, -⟩ := toNat_index_lt l hy0 hy
  by_cases hc : ⌈x⌉ ≤ ⌊y⌋
  · have h1 : interp_at l x ≤ l.getD ⌈x⌉.toNat 0 := interp_at_le_ceil l hl hx0 hx'
    have h2 : l.getD ⌈x⌉.toNat 0 ≤ l.getD ⌊y⌋.toNat 0 :=
      getD_le_getD_of_sorted l hl (by omega) hfly
    have h3 : l.getD ⌊y⌋.toNat 0 ≤ interp_at l y := interp_at_ge_floor l hl hy0 hy
    linarith
  · push_neg at hc
    have hfxy : ⌊x⌋ ≤ ⌊y⌋ := Int.floor_le_floor hxy
    have hcfx : ⌈x⌉ ≤ ⌊x⌋ + 1 := Int.ceil_le_floor_add_one x
    have hfeq : ⌊x⌋ = ⌊y⌋ := by omega
    have hceqx : ⌈x⌉ = ⌊x⌋ + 1 := by omega
    have hfrx : 0 < Int.fract x := by
      rcases lt_or_eq_of_le (Int.fract_nonneg x) with h | h
      · exact h
      · exfalso
        have hxint : x = (⌊x⌋ : ℚ) := by
          have h3 : Int.fract x = x - ⌊x⌋ := rfl
          rw [← h] at h3
          linarith [h3]
        have : ⌈x⌉ = ⌊x⌋ := by
          rw [hxint, Int.ceil_intCast, Int.floor_intCast]
        omega
    have hfry : Int.fract x ≤ Int.fract y := by
      have h3 : Int.fract x = x - ⌊x⌋ := rfl
      have h4 : Int.fract y = y - ⌊y⌋ := rfl
      rw [h3, h4, ← hfeq]
      linarith
    have hceqy : ⌈y⌉ = ⌊y⌋ + 1 := by
      have hylt : (⌊y⌋ : ℚ) < y := by
        have h4 : Int.fract y = y - ⌊y⌋ := rfl
        have : 0 < Int.fract y := lt_of_lt_of_le hfrx hfry
        linarith [h4 ▸ this]
      have h5 : ⌊y⌋ < ⌈y⌉ := Int.lt_ceil.mpr hylt
      have h6 : ⌈y⌉ ≤ ⌊y⌋ + 1 := Int.ceil_le_floor_add_one y
      omega
    have hsameceil : ⌈x⌉ = ⌈y⌉ := by omega
    have hab : l.getD ⌊x⌋.toNat 0 ≤ l.getD ⌈x⌉.toNat 0 :=
      getD_le_getD_of_sorted l hl (by omega) hclx
    unfold interp_at
    rw [← hfeq, ← hsameceil]
    nlinarith [mul_nonneg (sub_nonneg.mpr hfry) (sub_nonneg.mpr hab),
      Int.fract_nonneg x, Int.fract_lt_one y]

lemma percentile_mono (l : List ℚ) (hl : l.Sorted (· ≤ ·)) {p q : ℚ}
    (hpq : p ≤ q) : percentile l p ≤ percentile l q := by
  rcases Nat.eq_zero_or_pos l.length with hlen | hlen
  · unfold percentile
    rw [if_pos hlen, if_pos hlen]
  · have hne : l ≠ [] := fun h => by simp [h] at hlen
    have hlen' : l.length ≠ 0 := Nat.pos_iff_ne_zero.mp hlen
    have h1q : (1 : ℚ) ≤ (l.length : ℚ) := by exact_mod_cast hlen
    have hbound : ∀ r : ℚ, 0 < r → r < 1 →
        0 ≤ r * ((l.length : ℚ) - 1) ∧
        r * ((l.length : ℚ) - 1) ≤ (l.length : ℚ) - 1 := by
      intro r hr0 hr1
      constructor
      · exact mul_nonneg hr0.le (by linarith)
      · nlinarith
    by_cases hp0 : p ≤ 0
    · -- percentile l p is the first element
      have hfirst : percentile l p = l.getD 0 0 := by
        unfold percentile; rw [if_neg hlen', if_pos hp0]
      rw [hfirst]
      by_cases hq0 : q ≤ 0
      · unfold percentile; rw [if_neg hlen', if_pos hq0]
      · by_cases hq1 : 1 ≤ q
        · unfold percentile
          rw [if_neg hlen', if_neg hq0, if_pos hq1]
          exact getD_le_getD_of_sorted l hl (Nat.zero_le _) (by omega)
        · push_neg at hq0 hq1
          rw [percentile_eq_interp_at l q hne hq0 hq1]
          obtain ⟨hq0', hq1'⟩ := hbound q hq0 hq1
          have h2 : l.getD 0 0 ≤ l.getD ⌊q * ((l.length : ℚ) - 1)⌋.toNat 0 :=
            getD_le_getD_of_sorted l hl (Nat.zero_le _) (toNat_index_lt l hq0' hq1').1
          exact le_trans h2 (interp_at_ge_floor l hl hq0' hq1')
    · push_neg at hp0
      by_cases hp1 : 1 ≤ p
      · -- both p and q are at least 1: both give the last element
        have hq1 : 1 ≤ q := le_trans hp1 hpq
        unfold percentile
        rw [if_neg hlen', if_neg (not_le.mpr hp0), if_pos hp1, if_neg hlen',
          if_neg (not_le.mpr (lt_of_lt_of_le hp0 hpq)), if_pos hq1]
      · push_neg at hp1
        rw [percentile_eq_interp_at l p hne hp0 hp1]
        obtain ⟨hp0', hp1'⟩ := hbound p hp0 hp1
        by_cases hq1 : 1 ≤ q
        · -- percentile l q is the last element
          unfold percentile
          rw [if_neg hlen', if_neg (not_le.mpr (lt_of_lt_of_le hp0 hpq)), if_pos hq1]
          have h2 : l.getD ⌈p * ((l.length : ℚ) - 1)⌉.toNat 0 ≤ l.getD (l.length - 1) 0 := by
            refine getD_le_getD_of_sorted l hl ?_ (by omega)
            have hce : ⌈p * ((l.length : ℚ) - 1)⌉ ≤ (l.length : ℤ) - 1 :=
              Int.ceil_le.mpr (by push_cast; linarith)
            omega
          exact le_trans (interp_at_le_ceil l hl hp0' hp1') h2
        · push_neg at hq1
          have hq0 : 0 < q := lt_of_lt_of_le hp0 hpq
          rw [percentile_eq_interp_at l q hne hq0 hq1]
          obtain ⟨-, hq1'⟩ := hbound q hq0 hq1
          refine interp_at_mono l hl hp0' ?_ hq1'
          exact mul_le_mul_of_nonneg_right hpq (by linarith)

/-- C8: the percentile function returns `0` on the empty array, the first
element at `p = 0`, the last element at `p = 1`, and for `0 < p < 1` the
linear interpolation `sorted[⌊i⌋] * (1 - w) + sorted[⌈i⌉] * w` at index
`i = p * (n - 1)` with weight `w` the fractional part of `i`. -/
theorem percentile_spec (l : List ℚ) (p : ℚ) :
    percentile [] p = 0 ∧
    (l ≠ [] → percentile l 0 = l.getD 0 0) ∧
    (l ≠ [] → percentile l 1 = l.getD (l.length - 1) 0) ∧
    (l ≠ [] → 0 < p → p < 1 →
      percentile l p =
        l.getD ⌊p * ((l.length : ℚ) - 1)⌋.toNat 0 *
            (1 - Int.fract (p * ((l.length : ℚ) - 1))) +
          l.getD ⌈p * ((l.length : ℚ) - 1)⌉.toNat 0 *
            Int.fract (p * ((l.length : ℚ) - 1))) := by
  refine ⟨rfl, ?_, ?_, ?_⟩
  · intro h
    have hlen : l.length ≠ 0 := fun hl => h (List.eq_nil_of_length_eq_zero hl)
    unfold percentile
    rw [if_neg hlen, if_pos le_rfl]
  · intro h
    have hlen : l.length ≠ 0 := fun hl => h (List.eq_nil_of_length_eq_zero hl)
    unfold percentile
    rw [if_neg hlen, if_neg (by norm_num), if_pos le_rfl]
  · intro h hp0 hp1
    exact percentile_eq_interp_at l p h hp0 hp1

/-- Witness for C8 on the sorted array `[3, 7]` at `p = 1/2`. -/
theorem percentile_spec_witness :
    ([3, 7] : List ℚ) ≠ [] ∧ (0 : ℚ) < 1 / 2 ∧ (1 / 2 : ℚ) < 1 ∧
    percentile [3, 7] (1 / 2) =
      ([3, 7] : List ℚ).getD ⌊(1 / 2 : ℚ) * ((([3, 7] : List ℚ).length : ℚ) - 1)⌋.toNat 0 *
          (1 - Int.fract ((1 / 2 : ℚ) * ((([3, 7] : List ℚ).length : ℚ) - 1))) +
        ([3, 7] : List ℚ).getD ⌈(1 / 2 : ℚ) * ((([3, 7] : List ℚ).length : ℚ) - 1)⌉.toNat 0 *
          Int.fract ((1 / 2 : ℚ) * ((([3, 7] : List ℚ).length : ℚ) - 1)) :=
  ⟨by simp, by norm_num, by norm_num,
    (percentile_spec [3, 7] (1 / 2)).2.2.2 (by simp) (by norm_num) (by norm_num)⟩

/-- Field-for-field image of the `PercentileSeries` output struct. -/
structure PercentileSeries (T : Type) where
  p10 : T
  p25 : T
  p50 : T
  p75 : T
  p90 : T

/-- Stable ascending sort of a balance column, the embedding of
`sort_by(partial_cmp)` on finite `f64` values (`simulation.rs` 494). -/
def sort_balances (l : List ℚ) : List ℚ := List.insertionSort (· ≤ ·) l

/-- Column-wise percentile extraction of `run_monte_carlo_simulation`
(`simulation.rs` 489-500): sort the per-simulation balances of one month
and extract the five percentile levels from the same sorted column. -/
def month_percentiles (column : List ℚ) : PercentileSeries ℚ :=
  let sorted := sort_balances column
  { p10 := percentile sorted (1 / 10)
    p25 := percentile sorted (1 / 4)
    p50 := percentile sorted (1 / 2)
    p75 := percentile sorted (3 / 4)
    p90 := percentile sorted (9 / 10) }

/-- C9: for every balance column the extracted percentiles are monotone in
the percentile level: `p10 ≤ p25 ≤ p50 ≤ p75 ≤ p90`, because each is the
percentile function at an increasing level on the same sorted column. -/
theorem month_percentiles_monotone (column : List ℚ) :
    (month_percentiles column).p10 ≤ (month_percentiles column).p25 ∧
    (month_percentiles column).p25 ≤ (month_percentiles column).p50 ∧
    (month_percentiles column).p50 ≤ (month_percentiles column).p75 ∧
    (month_percentiles column).p75 ≤ (month_percentiles column).p90 := by
  have hs : (sort_balances column).Sorted (· ≤ ·) :=
    List.sorted_insertionSort _ _
  exact ⟨percentile_mono _ hs (by norm_num), percentile_mono _ hs (by norm_num),
    percentile_mono _ hs (by norm_num), percentile_mono _ hs (by norm_num)⟩

/-! ## FI target solver (`stats.rs` 210-259) -/

/-- Outcome pair of `find_retirement_balance_target`. -/
structure Outcome where
  retirement_balance : ℚ
  ending_positive : Bool

/-- Sorting relation of the solver: ascending retirement balance. -/
def outcome_le (a b : Outcome) : Prop :=
  a.retirement_balance ≤ b.retirement_balance

instance : DecidableRel outcome_le :=
  fun a b => inferInstanceAs (Decidable (a.retirement_balance ≤ b.retirement_balance))

instance : IsTotal Outcome outcome_le :=
  ⟨fun a b => le_total a.retirement_balance b.retirement_balance⟩

instance : IsTrans Outcome outcome_le :=
  ⟨fun _ _ _ => le_trans⟩

/-- Paired outcome count (`stats.rs` 215). -/
def outcome_count (retirement_balances ending_balances : List ℚ) : ℕ :=
  min retirement_balances.length ending_balances.length

/-- The outcome pairs before sorting (`stats.rs` 225-230): the retirement
balance paired with whether the ending balance is strictly positive. -/
def outcomes_of (retirement_balances ending_balances : List ℚ) : List Outcome :=
  (List.range (outcome_count retirement_balances ending_balances)).map
    (fun index =>
      { retirement_balance := retirement_balances.getD index 0
        ending_positive := decide (0 < ending_balances.getD index 0) })

/-- The outcomes sorted ascending by retirement balance; stable insertion
sort embeds Rust's stable `sort_by(partial_cmp)` (`stats.rs` 232-236). -/
def sorted_outcomes (retirement_balances ending_balances : List ℚ) : List Outcome :=
  List.insertionSort outcome_le (outcomes_of retirement_balances ending_balances)

/-- Suffix success count (`stats.rs` 238-246): the reverse accumulation
`suffix[i] = suffix[i+1] + (ending_positive ? 1 : 0)` counts the positive
endings at sorted indices at least `index`. -/
def suffix_success (retirement_balances ending_balances : List ℚ) (index : ℕ) : ℕ :=
  ((sorted_outcomes retirement_balances ending_balances).drop index).countP
    (fun o => o.ending_positive)

/-- The loop test of `stats.rs` 249-256: the suffix success fraction reaches
the requested probability. -/
def target_qualifies (retirement_balances ending_balances : List ℚ)
    (target_success_probability : ℚ) (index : ℕ) : Bool :=
  decide (target_success_probability ≤
    (suffix_success retirement_balances ending_balances index : ℚ) /
      ((outcome_count retirement_balances ending_balances - index : ℕ) : ℚ))

/-- First index at least `start` within `fuel` steps satisfying `p`; the
embedding of the for-loop with `break` of `stats.rs` 249-256. -/
def first_index_from (p : ℕ → Bool) (start fuel : ℕ) : Option ℕ :=
  match fuel with
  | 0 => none
  | Nat.succ fuel' =>
      if p start then some start else first_index_from p (start + 1) fuel'

/-- `find_retirement_balance_target` (`stats.rs` 210-259): sort the pairs
ascending by retirement balance, pick the retirement balance at the first
index whose suffix success fraction reaches the threshold (the last pair
when none does), and return its maximum with `0`. -/
def find_retirement_balance_target (retirement_balances ending_balances : List ℚ)
    (target_success_probability : ℚ) : ℚ :=
  if outcome_count retirement_balances ending_balances = 0 then 0
  else
    max
      (match first_index_from
          (target_qualifies retirement_balances ending_balances target_success_probability)
          0 (outcome_count retirement_balances ending_balances) with
        | some index =>
            ((sorted_outcomes retirement_balances ending_balances).getD index
              ⟨0, false⟩).retirement_balance
        | none =>
            ((sorted_outcomes retirement_balances ending_balances).getD
              (outcome_count retirement_balances ending_balances - 1)
              ⟨0, false⟩).retirement_balance)
      0

lemma first_index_from_eq_none {p : ℕ → Bool} {start fuel : ℕ}
    (h : first_index_from p start fuel = none) :
    ∀ k, start ≤ k → k < start + fuel → p k = false := by
  induction fuel generalizing start with
  | zero => intro k h1 h2; omega
  | succ fuel ih =>
      rw [first_index_from] at h
      by_cases hp : p start = true
      · rw [if_pos hp] at h; cases h
      · rw [if_neg hp] at h
        intro k h1 h2
        rcases Nat.eq_or_lt_of_le h1 with rfl | hlt
        · exact Bool.eq_false_iff.mpr hp
        · exact ih h k hlt (by omega)

lemma first_index_from_eq_some {p : ℕ → Bool} {start fuel i : ℕ}
    (h : first_index_from p start fuel = some i) :
    start ≤ i ∧ i < start + fuel ∧ p i = true ∧
      ∀ k, start ≤ k → k < i → p k = false := by
  induction fuel generalizing start with
  | zero => cases h
  | succ fuel ih =>
      rw [first_index_from] at h
      by_cases hp : p start = true
      · rw [if_pos hp] at h
        have heq := Option.some.inj h
        subst heq
        exact ⟨le_refl _, by omega, hp, fun k h1 h2 => by omega⟩
      · rw [if_neg hp] at h
        obtain ⟨h1, h2, h3, h4⟩ := ih h
        refine ⟨by omega, by omega, h3, ?_⟩
        intro k hk1 hk2
        rcases Nat.eq_or_lt_of_le hk1 with rfl | hlt
        · exact Bool.eq_false_iff.mpr hp
        · exact h4 k hlt hk2

/-- C6: `find_retirement_balance_target` sorts the outcome pairs ascending
by retirement balance (a permutation of the pairs, sorted by the key) and
returns `max t 0` where `t` is the retirement balance at the smallest
sorted index whose suffix success fraction reaches the threshold, or the
retirement balance of the last pair when no index qualifies; on the
retirement balances `[100, 200, 300, 400, 500]` with ending balances
`[0, 1, 1, 1, 1]` and threshold `0.95` the result is `200`. -/
theorem find_retirement_balance_target_spec :
    (∀ (rb eb : List ℚ) (t : ℚ), outcome_count rb eb ≠ 0 →
      ((sorted_outcomes rb eb).Sorted outcome_le ∧
        (sorted_outcomes rb eb).Perm (outcomes_of rb eb)) ∧
      ((∃ i, i < outcome_count rb eb ∧ target_qualifies rb eb t i = true ∧
          (∀ j, j < i → target_qualifies rb eb t j = false) ∧
          find_retirement_balance_target rb eb t =
            max ((sorted_outcomes rb eb).getD i ⟨0, false⟩).retirement_balance 0) ∨
        ((∀ i, i < outcome_count rb eb → target_qualifies rb eb t i = false) ∧
          find_retirement_balance_target rb eb t =
            max ((sorted_outcomes rb eb).getD (outcome_count rb eb - 1)
              ⟨0, false⟩).retirement_balance 0))) ∧
    find_retirement_balance_target [100, 200, 300, 400, 500] [0, 1, 1, 1, 1]
      (95 / 100) = 200 := by
  constructor
  · intro rb eb t hn
    refine ⟨⟨List.sorted_insertionSort _ _, List.perm_insertionSort _ _⟩, ?_⟩
    cases hfind : first_index_from (target_qualifies rb eb t) 0 (outcome_count rb eb) with
    | some i =>
        left
        obtain ⟨-, h2, h3, h4⟩ := first_index_from_eq_some hfind
        refine ⟨i, by omega, h3, fun j hj => h4 j (Nat.zero_le _) hj, ?_⟩
        rw [find_retirement_balance_target, if_neg hn, hfind]
    | none =>
        right
        refine ⟨fun i hi => first_index_from_eq_none hfind i (Nat.zero_le _) (by omega), ?_⟩
        rw [find_retirement_balance_target, if_neg hn, hfind]
  · norm_num [find_retirement_balance_target, outcome_count, first_index_from,
      target_qualifies, suffix_success, sorted_outcomes, outcomes_of,
      List.insertionSort, List.orderedInsert, outcome_le, List.range_succ]

/-- Witness for C6: the general characterization applied to the concrete
solver instance of the claim. -/
theorem find_retirement_balance_target_spec_witness :
    outcome_count [100, 200, 300, 400, 500] [0, 1, 1, 1, 1] ≠ 0 ∧
    (((sorted_outcomes [100, 200, 300, 400, 500] [0, 1, 1, 1, 1]).Sorted outcome_le ∧
      (sorted_outcomes [100, 200, 300, 400, 500] [0, 1, 1, 1, 1]).Perm
        (outcomes_of [100, 200, 300, 400, 500] [0, 1, 1, 1, 1])) ∧
    ((∃ i, i < outcome_count [100, 200, 300, 400, 500] [0, 1, 1, 1, 1] ∧
        target_qualifies [100, 200, 300, 400, 500] [0, 1, 1, 1, 1] (95 / 100) i = true ∧
        (∀ j, j < i →
          target_qualifies [100, 200, 300, 400, 500] [0, 1, 1, 1, 1] (95 / 100) j = false) ∧
        find_retirement_balance_target [100, 200, 300, 400, 500] [0, 1, 1, 1, 1] (95 / 100) =
          max ((sorted_outcomes [100, 200, 300, 400, 500] [0, 1, 1, 1, 1]).getD i
            ⟨0, false⟩).retirement_balance 0) ∨
      ((∀ i, i < outcome_count [100, 200, 300, 400, 500] [0, 1, 1, 1, 1] →
          target_qualifies [100, 200, 300, 400, 500] [0, 1, 1, 1, 1] (95 / 100) i = false) ∧
        find_retirement_balance_target [100, 200, 300, 400, 500] [0, 1, 1, 1, 1] (95 / 100) =
          max ((sorted_outcomes [100, 200, 300, 400, 500] [0, 1, 1, 1, 1]).getD
            (outcome_count [100, 200, 300, 400, 500] [0, 1, 1, 1, 1] - 1)
            ⟨0, false⟩).retirement_balance 0))) :=
  ⟨by norm_num [outcome_count],
    (find_retirement_balance_target_spec.1 [100, 200, 300, 400, 500] [0, 1, 1, 1, 1]
      (95 / 100) (by norm_num [outcome_count]))⟩

/-! ## Ruin-surface replay (`stats.rs` 93-122) -/

/-- One replayed month of `replay_ruin_probability`: add the cashflows,
apply the recorded growth factor, and on a breach clamp the balance to `0`
and mark the simulation ruined.  The state is `(balance, ruined)`. -/
def replay_month_step (net_flow lump factor : ℚ) (st : ℚ × Bool) : ℚ × Bool :=
  let balance := (st.1 + net_flow + lump) * factor
  if balance ≤ 0 then (0, true) else (balance, st.2)

/-- One replayed simulation over `months` months (`stats.rs` 104-114). -/
def replay_single_sim (growth_factors monthly_net_flow lump_sum_by_month : List ℚ)
    (current_savings : ℚ) (months : ℕ) : ℚ × Bool :=
  (List.range months).foldl
    (fun st month =>
      replay_month_step (monthly_net_flow.getD month 0)
        (lump_sum_by_month.getD month 0) (growth_factors.getD month 1) st)
    (current_savings, false)

/-- `replay_ruin_probability` (`stats.rs` 93-122): the number of replayed
simulations that are ruined or end at a nonpositive balance, divided by
`max sample_count 1`. -/
def replay_ruin_probability (growth_factors : List (List ℚ))
    (monthly_net_flow lump_sum_by_month : List ℚ) (current_savings : ℚ)
    (sample_count months : ℕ) : ℚ :=
  let ruin_count := (List.range sample_count).countP (fun sim =>
    let r := replay_single_sim (growth_factors.getD sim [])
      monthly_net_flow lump_sum_by_month current_savings months
    r.2 || decide (r.1 ≤ 0))
  (ruin_count : ℚ) / ((max sample_count 1 : ℕ) : ℚ)

/-- C10: `replay_ruin_probability` is total and returns a value in `[0, 1]`
equal to the ruined count divided by `max sample_count 1` (so a zero sample
count yields `0` rather than a division by zero), and within a replayed
simulation any month whose post-cashflow, post-growth balance is at most
`0` clamps the balance to `0` and marks the simulation ruined. -/
theorem replay_ruin_probability_spec (growth_factors : List (List ℚ))
    (monthly_net_flow lump_sum_by_month : List ℚ) (current_savings : ℚ)
    (sample_count months : ℕ)
    (hrows : sample_count ≤ growth_factors.length)
    (hcols : ∀ row ∈ growth_factors, months ≤ row.length)
    (hflow : months ≤ monthly_net_flow.length)
    (hlump : months ≤ lump_sum_by_month.length) :
    0 ≤ replay_ruin_probability growth_factors monthly_net_flow lump_sum_by_month
        current_savings sample_count months ∧
    replay_ruin_probability growth_factors monthly_net_flow lump_sum_by_month
        current_savings sample_count months ≤ 1 ∧
    replay_ruin_probability growth_factors monthly_net_flow lump_sum_by_month
        current_savings sample_count months =
      (((List.range sample_count).countP (fun sim =>
          (replay_single_sim (growth_factors.getD sim []) monthly_net_flow
            lump_sum_by_month current_savings months).2 ||
          decide ((replay_single_sim (growth_factors.getD sim []) monthly_net_flow
            lump_sum_by_month current_savings months).1 ≤ 0)) : ℚ)) /
        ((max sample_count 1 : ℕ) : ℚ) ∧
    (sample_count = 0 →
      replay_ruin_probability growth_factors monthly_net_flow lump_sum_by_month
        current_savings sample_count months = 0) ∧
    (∀ (nf lu fa : ℚ) (st : ℚ × Bool),
      (st.1 + nf + lu) * fa ≤ 0 → replay_month_step nf lu fa st = (0, true)) := by
  have hcount : (List.range sample_count).countP (fun sim =>
      let r := replay_single_sim (growth_factors.getD sim [])
        monthly_net_flow lump_sum_by_month current_savings months
      r.2 || decide (r.1 ≤ 0)) ≤ sample_count := by
    calc (List.range sample_count).countP _ ≤ (List.range sample_count).length :=
          List.countP_le_length _
      _ = sample_count := List.length_range sample_count
  have hden : (0 : ℚ) < ((max sample_count 1 : ℕ) : ℚ) := by
    have : 1 ≤ max sample_count 1 := le_max_right _ _
    exact_mod_cast Nat.lt_of_lt_of_le Nat.zero_lt_one this
  refine ⟨?_, ?_, rfl, ?_, ?_⟩
  · exact div_nonneg (Nat.cast_nonneg _) hden.le
  · rw [replay_ruin_probability, div_le_one hden]
    have hle : (List.range sample_count).countP _ ≤ max sample_count 1 :=
      le_trans hcount (le_max_left _ _)
    exact_mod_cast hle
  · intro h0
    subst h0
    rw [replay_ruin_probability]
    norm_num
  · intro nf lu fa st hneg
    rw [replay_month_step, if_pos hneg]

/-- Witness for C10: a single one-month replay that survives. -/
theorem replay_ruin_probability_spec_witness :
    ((1 : ℕ) ≤ ([[ (1 : ℚ) ]] : List (List ℚ)).length ∧
      (∀ row ∈ ([[ (1 : ℚ) ]] : List (List ℚ)), 1 ≤ row.length) ∧
      (1 : ℕ) ≤ ([ (0 : ℚ) ] : List ℚ).length ∧
      (1 : ℕ) ≤ ([ (0 : ℚ) ] : List ℚ).length) ∧
    0 ≤ replay_ruin_probability [[1]] [0] [0] 1 1 1 ∧
    replay_ruin_probability [[1]] [0] [0] 1 1 1 ≤ 1 :=
  ⟨⟨by norm_num, by intro row hrow; simp at hrow; simp [hrow], by norm_num, by norm_num⟩,
    (replay_ruin_probability_spec [[1]] [0] [0] 1 1 1
      (by norm_num) (by intro row hrow; simp at hrow; simp [hrow])
      (by norm_num) (by norm_num)).1,
    (replay_ruin_probability_spec [[1]] [0] [0] 1 1 1
      (by norm_num) (by intro row hrow; simp at hrow; simp [hrow])
      (by norm_num) (by norm_num)).2.1⟩

/-! ## Effective annual history and moment targeting
(`engine2.rs` 4-21, `simulation.rs` 113-178, `engine.rs` 172-174)

These values are modelled as reals because the population standard
deviation of the history takes a square root.  The 120-year synthesized
series of `build_bootstrap_history` is RNG-driven and enters as the
`synthesized` parameter, exactly where `run_monte_carlo_simulation`
consumes it; `simulation_mode` is the optional input field whose absent
default is `"historical"`, and finiteness tests on reals are vacuous. -/

/-- `apply_moment_targeting` of `engine2.rs` 4-21: remap a value to the
target moments via the source z-score; degenerate source deviation (at most
`1e-12`) returns the target mean, and the target deviation is floored at
`0`. -/
noncomputable def apply_moment_targeting
    (value source_mean source_std target_mean target_std : ℝ) : ℝ :=
  if source_std ≤ 1 / 10 ^ 12 then target_mean
  else target_mean + (value - source_mean) / source_std * max target_std 0

/-- Population mean of a history (`simulation.rs` 147-148). -/
noncomputable def history_mean (l : List ℝ) : ℝ := l.sum / l.length

/-- Population standard deviation of a history (`simulation.rs` 149-154):
square root of the variance floored at `0`. -/
noncomputable def history_std (l : List ℝ) : ℝ :=
  Real.sqrt (max ((l.map (fun v => (v - history_mean l) ^ 2)).sum / l.length) 0)

/-- Source-history selection of `simulation.rs` 135-144: the user-supplied
annual history when the mode is `"historical"` and it has at least 25
entries, otherwise the synthesized 120-year series. -/
def select_bootstrap_history (simulation_mode : Option String)
    (historical_annual_returns : Option (List ℝ)) (synthesized : List ℝ) : List ℝ :=
  let bootstrap_history : List ℝ :=
    if simulation_mode.getD "historical" = "historical" then
      match historical_annual_returns with
      | some hist => if 25 ≤ hist.length then hist else []
      | none => []
    else []
  if bootstrap_history.isEmpty then synthesized else bootstrap_history

/-- The `effective_annual_history` preparation of `simulation.rs` 156-178:
only in `"historical"` mode is each element optionally moment-targeted and
then clamped to the annual range; otherwise the source history is returned
unchanged. -/
noncomputable def effective_annual_history (simulation_mode : Option String)
    (historical_annual_returns : Option (List ℝ))
    (historical_moment_targeting : Option Bool)
    (target_annual_mean target_annual_std : ℝ) (synthesized : List ℝ) : List ℝ :=
  if simulation_mode.getD "historical" = "historical" then
    (select_bootstrap_history simulation_mode historical_annual_returns
      synthesized).map (fun v =>
        clamp_annual_return
          (if historical_moment_targeting.getD false then
            apply_moment_targeting v
              (history_mean (select_bootstrap_history simulation_mode
                historical_annual_returns synthesized))
              (history_std (select_bootstrap_history simulation_mode
                historical_annual_returns synthesized))
              target_annual_mean target_annual_std
          else v))
  else select_bootstrap_history simulation_mode historical_annual_returns synthesized

/-- Per-element remap written from the spec text of the claim: remap to
`targetMean + ((v - srcMean)/srcStd) * targetStd` when `srcStd > 1e-12`,
else `targetMean`, then clamp to the annual range. -/
noncomputable def spec_targeted_value
    (v source_mean source_std target_mean target_std : ℝ) : ℝ :=
  clamp_annual_return
    (if 1 / 10 ^ 12 < source_std then
      target_mean + (v - source_mean) / source_std * target_std
    else target_mean)

/-- Counterexample for C5: in `"parametric"` mode with moment targeting
enabled, the code leaves the synthesized history `[1/10, 1/10]` unchanged,
while the claimed remap (with target mean and deviation `0`) would clamp
every element to `0`. -/
theorem effective_annual_history_counterexample :
    (some true : Option Bool).getD false = true ∧
    effective_annual_history (some "parametric") none (some true) 0 0
      [1 / 10, 1 / 10] = [1 / 10, 1 / 10] ∧
    spec_targeted_value (1 / 10)
      (history_mean (select_bootstrap_history (some "parametric") none [1 / 10, 1 / 10]))
      (history_std (select_bootstrap_history (some "parametric") none [1 / 10, 1 / 10]))
      0 0 = 0 ∧
    (1 / 10 : ℝ) ≠ 0 := by
  have hsel : select_bootstrap_history (some "parametric") none [1 / 10, 1 / 10] =
      [1 / 10, 1 / 10] := by
    simp [select_bootstrap_history]
  refine ⟨rfl, ?_, ?_, by norm_num⟩
  · rw [effective_annual_history, if_neg (by simp), hsel]
  · have hmean : history_mean [(1 / 10 : ℝ), 1 / 10] = 1 / 10 := by
      norm_num [history_mean]
    have hstd : history_std [(1 / 10 : ℝ), 1 / 10] = 0 := by
      rw [history_std, hmean]
      norm_num [Real.sqrt_zero]
    rw [hsel, hstd, spec_targeted_value, if_neg (by norm_num)]
    norm_num [clamp_annual_return, clamp]

/-- C5 (amended): in every `"historical"`-mode run with moment targeting
enabled and a nonnegative target deviation (the driver passes
`return_variability.max(0.0)`), every element of the effective annual
history equals the clamped remap `targetMean + ((v - srcMean)/srcStd) *
targetStd` of the corresponding source-history element `v` when `srcStd >
1e-12` (and `targetMean` otherwise), where the source history is the
user-supplied annual history with at least 25 entries or the synthesized
120-year series. -/
theorem effective_annual_history_targeting (mode : Option String)
    (hist : Option (List ℝ)) (tm ts : ℝ) (synth : List ℝ)
    (hts : 0 ≤ ts) (hmode : mode.getD "historical" = "historical") :
    effective_annual_history mode hist (some true) tm ts synth =
      (select_bootstrap_history mode hist synth).map (fun v =>
        spec_targeted_value v (history_mean (select_bootstrap_history mode hist synth))
          (history_std (select_bootstrap_history mode hist synth)) tm ts) := by
  rw [effective_annual_history, if_pos hmode]
  refine List.map_congr_left ?_
  intro v hv
  show clamp_annual_return
      (if (some true : Option Bool).getD false then
        apply_moment_targeting v _ _ tm ts else v) = _
  rw [spec_targeted_value, apply_moment_targeting]
  simp only [Option.getD_some, if_true]
  by_cases hss : history_std (select_bootstrap_history mode hist synth) ≤ 1 / 10 ^ 12
  · rw [if_pos hss, if_neg (not_lt.mpr hss)]
  · rw [if_neg hss, if_pos (not_le.mp hss), max_eq_left hts]

/-- Witness for the amended C5 on a one-element synthesized history in
default (historical) mode. -/
theorem effective_annual_history_targeting_witness :
    ((0 : ℝ) ≤ 0 ∧ (none : Option String).getD "historical" = "historical") ∧
    effective_annual_history none none (some true) 1 0 [0] =
      (select_bootstrap_history none none [0]).map (fun v =>
        spec_targeted_value v (history_mean (select_bootstrap_history none none [0]))
          (history_std (select_bootstrap_history none none [0])) 1 0) :=
  ⟨⟨le_refl 0, rfl⟩,
    effective_annual_history_targeting none none 1 0 [0] (le_refl 0) rfl⟩

/-! ## Cashflow builder (`engine2.rs` 249-316, `structs.rs`)

Modelled over the reals because the expected inflation index raises
`1 + inflationMean` to a fractional power (`powf`, here `Real.rpow`).  The
`id` and `label` strings of the payload structs are not read by the
builder and are omitted. -/

/-- Spending period payload (`structs.rs` 9-20). -/
structure SpendingPeriod where
  from_age : ℝ
  to_age : ℝ
  yearly_amount : ℝ
  inflation_adjusted : Option Bool

/-- Income source payload (`structs.rs` 23-34). -/
structure IncomeSource where
  from_age : ℝ
  to_age : ℝ
  yearly_amount : ℝ
  inflation_adjusted : Option Bool

/-- The two `RetirementInput` fields read by the cashflow builder. -/
structure CashflowInput where
  current_age : ℝ
  inflation_mean : ℝ

/-- `expected_inflation_index_at_age` (`engine2.rs` 254-257):
`max 1e-9 ((1 + inflationMean) ^ max (age - currentAge) 0)`. -/
noncomputable def expected_inflation_index_at_age (input : CashflowInput) (age : ℝ) : ℝ :=
  max (1 / 10 ^ 9) (Real.rpow (1 + input.inflation_mean) (max (age - input.current_age) 0))

/-- `spending_at_age` (`engine2.rs` 259-271): sum the yearly amounts of the
periods matching the half-open interval `fromAge ≤ age < toAge`, deflating
a non-inflation-adjusted amount (flag default `true`) by the index. -/
noncomputable def spending_at_age (age : ℝ) (spending_periods : List SpendingPeriod)
    (inflation_index : ℝ) : ℝ :=
  (spending_periods.filter (fun period =>
      decide (period.from_age ≤ age ∧ period.to_age > age))).foldl
    (fun sum period =>
      sum + if period.inflation_adjusted.getD true then period.yearly_amount
            else period.yearly_amount / inflation_index) 0

/-- `income_at_age` (`engine2.rs` 273-285), same matching and deflation
rule as the spending side. -/
noncomputable def income_at_age (age : ℝ) (income_sources : List IncomeSource)
    (inflation_index : ℝ) : ℝ :=
  (income_sources.filter (fun source =>
      decide (source.from_age ≤ age ∧ source.to_age > age))).foldl
    (fun sum source =>
      sum + if source.inflation_adjusted.getD true then source.yearly_amount
            else source.yearly_amount / inflation_index) 0

/-- The net-flow loop of `build_cashflow_arrays` (`engine2.rs` 294-303):
for each month the age is `currentAge + m/12` and the net flow is
`(income - spending) / 12` at the expected inflation index of that age. -/
noncomputable def build_monthly_net_flow (input : CashflowInput)
    (spending_periods : List SpendingPeriod) (income_sources : List IncomeSource)
    (months : ℕ) : List ℝ :=
  (List.range months).map (fun (m : ℕ) =>
    let age := input.current_age + (m : ℝ) / 12
    let inflation_index := expected_inflation_index_at_age input age
    (income_at_age age income_sources inflation_index -
      spending_at_age age spending_periods inflation_index) / 12)

lemma build_monthly_net_flow_getD (input : CashflowInput)
    (spending_periods : List SpendingPeriod) (income_sources : List IncomeSource)
    (months m : ℕ) (hm : m < months) :
    (build_monthly_net_flow input spending_periods income_sources months).getD m 0 =
      (income_at_age (input.current_age + (m : ℝ) / 12) income_sources
          (expected_inflation_index_at_age input (input.current_age + (m : ℝ) / 12)) -
        spending_at_age (input.current_age + (m : ℝ) / 12) spending_periods
          (expected_inflation_index_at_age input (input.current_age + (m : ℝ) / 12))) / 12 := by
  rw [build_monthly_net_flow, List.getD_eq_getElem?_getD, List.getElem?_map,
    List.getElem?_range hm]
  rfl

lemma spending_at_age_single_matched (age inflation_index : ℝ) (p : SpendingPeriod)
    (h1 : p.from_age ≤ age) (h2 : age < p.to_age)
    (hadj : p.inflation_adjusted.getD true = true) :
    spending_at_age age [p] inflation_index = p.yearly_amount := by
  rw [spending_at_age]
  simp only [List.filter_cons, List.filter_nil, decide_eq_true_eq]
  rw [if_pos ⟨h1, h2⟩, List.foldl_cons, List.foldl_nil, hadj, if_pos rfl, zero_add]

/-- C7: the cashflow builder sets `monthlyNetFlow[m] = (income - spending)
/ 12` at age `currentAge + m/12` (matching half-open on `[fromAge, toAge)`
and deflating non-adjusted amounts by the expected inflation index), and
over any 12 consecutive months all matched by one inflation-adjusted
`$12,000`-per-year spending period with no income, the net flows sum to
`-$12,000` within `1e-9`. -/
theorem build_monthly_net_flow_spec :
    (∀ (input : CashflowInput) (spending_periods : List SpendingPeriod)
        (income_sources : List IncomeSource) (months m : ℕ), m < months →
      (build_monthly_net_flow input spending_periods income_sources months).getD m 0 =
        (income_at_age (input.current_age + (m : ℝ) / 12) income_sources
            (expected_inflation_index_at_age input (input.current_age + (m : ℝ) / 12)) -
          spending_at_age (input.current_age + (m : ℝ) / 12) spending_periods
            (expected_inflation_index_at_age input
              (input.current_age + (m : ℝ) / 12))) / 12) ∧
    (∀ (input : CashflowInput) (p : SpendingPeriod) (s months : ℕ),
      p.inflation_adjusted.getD true = true →
      p.yearly_amount = 12000 →
      s + 12 ≤ months →
      (∀ k, k < 12 → p.from_age ≤ input.current_age + ((s + k : ℕ) : ℝ) / 12 ∧
        input.current_age + ((s + k : ℕ) : ℝ) / 12 < p.to_age) →
      |((List.range 12).map (fun k =>
          (build_monthly_net_flow input [p] [] months).getD (s + k) 0)).sum + 12000| ≤
        1 / 10 ^ 9) := by
  constructor
  · intro input spending_periods income_sources months m hm
    exact build_monthly_net_flow_getD input spending_periods income_sources months m hm
  · intro input p s months hadj hamt hsm hmatch
    have hterm : ∀ k ∈ List.range 12,
        (build_monthly_net_flow input [p] [] months).getD (s + k) 0 = -1000 := by
      intro k hk
      have hk12 : k < 12 := List.mem_range.mp hk
      have hlt : s + k < months := by omega
      rw [build_monthly_net_flow_getD input [p] [] months (s + k) hlt]
      have hinc : income_at_age (input.current_age + ((s + k : ℕ) : ℝ) / 12) []
          (expected_inflation_index_at_age input
            (input.current_age + ((s + k : ℕ) : ℝ) / 12)) = 0 := rfl
      obtain ⟨hm1, hm2⟩ := hmatch k hk12
      rw [hinc, spending_at_age_single_matched _ _ p hm1 hm2 hadj, hamt]
      norm_num
    rw [List.map_congr_left hterm, List.map_const', List.length_range,
      List.sum_replicate]
    norm_num

/-- Witness for C7: a single `$12,000` inflation-adjusted spending period
covering ages 0 to 100, no income, current age 30, over the first year. -/
theorem build_monthly_net_flow_spec_witness :
    ((⟨0, 100, 12000, some true⟩ : SpendingPeriod).inflation_adjusted.getD true = true ∧
      (⟨0, 100, 12000, some true⟩ : SpendingPeriod).yearly_amount = 12000 ∧
      0 + 12 ≤ 12) ∧
    |((List.range 12).map (fun k =>
        (build_monthly_net_flow ⟨30, 0⟩ [⟨0, 100, 12000, some true⟩] [] 12).getD
          (0 + k) 0)).sum + 12000| ≤ 1 / 10 ^ 9 :=
  ⟨⟨rfl, rfl, by norm_num⟩,
    build_monthly_net_flow_spec.2 ⟨30, 0⟩ ⟨0, 100, 12000, some true⟩ 0 12 rfl rfl
      (by norm_num)
      (by
        intro k hk
        have hk11 : (k : ℝ) ≤ 11 := by exact_mod_cast Nat.lt_succ_iff.mp hk
        have hk0 : (0 : ℝ) ≤ (k : ℝ) := Nat.cast_nonneg k
        constructor
        · show (0 : ℝ) ≤ 30 + ((0 + k : ℕ) : ℝ) / 12
          push_cast
          linarith
        · show (30 : ℝ) + ((0 + k : ℕ) : ℝ) / 12 < 100
          push_cast
          linarith)⟩

end RetirementPlanner
